import Mathlib

/-!
# Verification of the `unfmt` reverse-format scanner

This file gives a shallow embedding of the Go package `unfmt` (files
`pattern.go`, `verb.go`, `assign.go`, `scanner.go`) and proves properties of
the embedded functions.

Modelling conventions:
* A Go `string` is modelled as `List Char`; every string occurring in the
  claims is ASCII, so one `Char` corresponds to one byte and the byte offsets
  computed by the Go code coincide with list indices.
* Fallible Go functions returning `error` are modelled with `Except Err`.
  A Go runtime panic that the code can reach (an out-of-range index on the
  result of `strings.SplitN`, a `nil` map lookup) is modelled as a dedicated
  `Err` constructor so that it is distinguishable from ordinary errors.
* The Go `int` of the reference platform is 64 bits wide; `strconv.Atoi`,
  `strconv.ParseInt` and `strconv.ParseUint` are modelled with the
  corresponding explicit range checks on `Nat`/`Int` values.
* Error wrapping with `fmt.Errorf("...: %w", err)` preserves the matched
  error kind (`errors.Is`); the embedding keeps the innermost error value and
  classifies kinds with `Err.isBadArg`.  The count-mismatch error in
  `ScanString` is built *without* `%w`-wrapping `ErrBadArg` in the source,
  which the embedding reflects by classifying `countMismatch` as not-BadArg.
-/

namespace Unfmt

/-- A Go string, as a list of (single-byte) characters. -/
abbrev Str := List Char

/-- `unicode.IsSpace` restricted to the Latin-1 range (all inputs in the
claims are ASCII): space, tab, newline, vertical tab, form feed, carriage
return, NEL and NBSP. -/
def isSpaceGo (c : Char) : Bool :=
  c = ' ' ∨ c = '\t' ∨ c = '\n' ∨ c = '\x0b' ∨ c = '\x0c' ∨ c = '\r' ∨
  c = '\x85' ∨ c = '\xa0'

/-- The flag-character table `flags` of `pattern.go`. -/
def flagChars : List Char :=
  ['#', '-', '.', ' ', '0', '1', '2', '3', '4', '5', '6', '7', '8', '9']

/-- `isFlag` of `pattern.go`. -/
def isFlag (r : Char) : Bool := flagChars.contains r

/-- The verb characters registered in `assignFuncs` (`scanner.go` constants
`verbBool = 't'`, `verbInt = 'd'`, `verbString = 's'`). -/
def isSupportedVerb (r : Char) : Bool := r = 't' ∨ r = 'd' ∨ r = 's'

/-- `verb` of `verb.go`: verb character, byte offset of the leading `%` in
the original format string, and flag characters. -/
structure Verb where
  value : Char
  start : Nat
  flags : List Char
deriving Repr, DecidableEq

instance : Inhabited Verb := ⟨⟨'d', 0, []⟩⟩

/-- `verb.String()`: `"%" + string(v.flags) + string(v.value)`. -/
def Verb.vstr (v : Verb) : Str := '%' :: (v.flags ++ [v.value])

/-- Decimal digit test used by `maxWidth` (`f >= '0' && f <= '9'`). -/
def isDigitChar (c : Char) : Bool := '0' ≤ c ∧ c ≤ '9'

/-- The digit-collecting loop of `verb.maxWidth`: walks the flags, starts
taking at the first digit and stops at the first non-digit thereafter. -/
def takeWidth : List Char → Bool → List Char
  | [], _ => []
  | f :: rest, taking =>
    if isDigitChar f then f :: takeWidth rest true
    else if taking then [] else takeWidth rest false

/-- Decimal value of a digit string. -/
def digitsVal (l : Str) : Nat :=
  l.foldl (fun acc c => acc * 10 + (c.toNat - '0'.toNat)) 0

/-- Largest value representable in Go's 64-bit `int` (`strconv.Atoi` performs
`ParseInt(s, 10, 0)` and fails with `ErrRange` beyond it; the width string
contains no sign, so only the upper bound matters). -/
def maxInt64 : Nat := 2 ^ 63 - 1

/-- `verb.maxWidth` of `verb.go`: collect the first maximal digit run from
the flags; no digits means no width; `strconv.Atoi` failure (range overflow)
is also reported as no width. -/
def Verb.maxWidth (v : Verb) : Option Nat :=
  let widthFlags := takeWidth v.flags false
  if widthFlags.isEmpty then none
  else
    let w := digitsVal widthFlags
    if w ≤ maxInt64 then some w else none

/-- The error values of the package (`scanner.go` sentinel errors together
with the distinct messages attached at each error site).  Go panics reachable
in `pattern.go` get their own constructors. -/
inductive Err where
  /-- `ErrBadArg`-wrapped: `'format' must not be empty`. -/
  | badArgEmptyFormat
  /-- `ErrBadArg`-wrapped: `'str' must not be empty`. -/
  | badArgEmptyStr
  /-- `ErrBadArg`-wrapped: `one or more 'targetPtrs' required`. -/
  | badArgNoTargets
  /-- `ErrBadArg`-wrapped: `unsupported verb '%s'` (parseVerbs). -/
  | badArgUnsupportedVerb (value : Char) (flags : List Char)
  /-- `ErrBadArg`-wrapped: `found consecutive instances of verb '%%%c'
  without a max width or intervening substring` (parseSegments). -/
  | badArgConsecutiveVerbs (value : Char)
  /-- `got %d 'targetPtrs' for %d verbs; count must match` — built without
  wrapping any sentinel error. -/
  | countMismatch (ptrs verbs : Nat)
  /-- `ErrNoMatch`-wrapped: `could not find substring '%s' in '%s'`. -/
  | noMatchSegment (segment str : Str)
  /-- bare `ErrNoMatch` (getTrueSegmentStarts, no complete set). -/
  | noMatch
  /-- `ErrMultipleMatches`-wrapped: `found %d; need 1`. -/
  | multipleMatches (found : Nat)
  /-- `ErrEmptyCapture`-wrapped: `expected capture at start of 'str' for
  leading verb '%s'`. -/
  | emptyCaptureStart (v : Verb)
  /-- `ErrEmptyCapture`-wrapped: `expected capture at end of 'str' for final
  verb '%s'`. -/
  | emptyCaptureEnd (v : Verb)
  /-- `ErrBug`-wrapped: `no string to capture between matching segments '%s'
  and '%s', so pattern should not have matched`. -/
  | bugNoCaptureBetween (seg1 seg2 : Str)
  /-- `ErrBug`-wrapped: `no verbs assigned to captured substring '%s'`. -/
  | bugNoVerbs (substr : Str)
  /-- `ErrBug`-wrapped: `no element found at 'targetPtrs[%d]' for next verb
  '%s' and substring '%s'` (assign). -/
  | bugNoTarget (idx : Nat) (v : Verb) (substr : Str)
  /-- `all of substring '%s' consumed by prior adjacent verb(s), none left
  for next verb '%s'` (assign, unwrapped leaf error). -/
  | allConsumed (substr : Str) (v : Verb)
  /-- `expected %s pointer as target, got %T` (assign funcs). -/
  | wrongTargetType (verbChar : Char) (gotKind : Nat)
  /-- `expected one or more leading boolean characters, got '%s'`. -/
  | noLeadingBoolChars (str : Str)
  /-- `error converting '%s' to bool: ...`. -/
  | convBoolFailed (str : Str)
  /-- `expected one or more leading numeric characters, got '%s'`. -/
  | noLeadingIntChars (str : Str)
  /-- `error converting '%s' to integer: ...`. -/
  | convIntFailed (str : Str)
  /-- `at index %d: %w` wrapper added by `assign` around an inner error. -/
  | assignAt (idx : Nat) (e : Err)
  /-- Go panic: `strings.SplitN` found no separator and the code indexed
  `halves[1]` out of range (parseSegments). -/
  | goPanicSplit
  /-- Go panic: `assignFuncs[verb.value]` is `nil` for an unregistered verb
  character and was called. -/
  | goPanicNilFunc
deriving Repr, DecidableEq

/-- `errors.Is(err, ErrBadArg)` through the `%w` wrapping chains of the
package: only the errors built by wrapping `ErrBadArg` match. -/
def Err.isBadArg : Err → Bool
  | .badArgEmptyFormat | .badArgEmptyStr | .badArgNoTargets
  | .badArgUnsupportedVerb _ _ | .badArgConsecutiveVerbs _ => true
  | .assignAt _ e => e.isBadArg
  | _ => false

/-- `segment` of `pattern.go`. -/
structure Segment where
  value : Str
  formatStart : Nat
  starts : List Nat
deriving Repr, DecidableEq

instance : Inhabited Segment := ⟨⟨[], 0, []⟩⟩

/-- `captureGroup` of `pattern.go`. -/
structure CaptureGroup where
  substr : Str
  verbs : List Verb
deriving Repr, DecidableEq

/-- `pattern` of `pattern.go` (the compile-time fields; the scan-scoped
fields `trueSegmentStarts` and `captureGroups` are passed explicitly). -/
structure Pattern where
  format : Str
  verbs : List Verb
  segments : List Segment
deriving Repr, DecidableEq

/-- The character loop of `pattern.parseVerbs`: state `seekVerb`, byte index
`idx`, pending `flags`, accumulated verbs.  Inside a verb, `%` escapes and
leaves verb mode (without clearing pending flags, as in the source), flag
characters accumulate, a supported verb character emits a verb whose start is
`idx - (1 + len flags)`, anything else is a fatal unsupported-verb error. -/
def parseVerbsAux : List Char → Bool → Nat → List Char → List Verb →
    Except Err (List Verb)
  | [], _, _, _, acc => .ok acc
  | c :: rest, seekVerb, idx, fl, acc =>
    if seekVerb then
      if c = '%' then parseVerbsAux rest false (idx + 1) fl acc
      else if isFlag c then parseVerbsAux rest true (idx + 1) (fl ++ [c]) acc
      else if isSupportedVerb c then
        parseVerbsAux rest false (idx + 1) []
          (acc ++ [⟨c, idx - (1 + fl.length), fl⟩])
      else .error (.badArgUnsupportedVerb c fl)
    else if c = '%' then parseVerbsAux rest true (idx + 1) fl acc
    else parseVerbsAux rest false (idx + 1) fl acc

/-- `pattern.parseVerbs`. -/
def parseVerbs (format : Str) : Except Err (List Verb) :=
  parseVerbsAux format false 0 [] []

/-- `unescapeFormat`: `strings.ReplaceAll(format, "%%", "%")`, i.e. replace
non-overlapping occurrences of `%%` left to right. -/
def unescapeFormat : Str → Str
  | [] => []
  | [c] => [c]
  | c1 :: c2 :: rest =>
    if c1 = '%' ∧ c2 = '%' then '%' :: unescapeFormat rest
    else c1 :: unescapeFormat (c2 :: rest)

/-- Index of the first occurrence of `needle` in `haystack` starting the
search at accumulated position `i` (`strings.Index` helper). -/
def firstIndexAux : Str → Str → Nat → Option Nat
  | [], needle, i => if needle.isPrefixOf ([] : Str) then some i else none
  | c :: t, needle, i =>
    if needle.isPrefixOf (c :: t) then some i
    else firstIndexAux t needle (i + 1)

/-- `strings.Index haystack needle`, with `none` for Go's `-1`. -/
def firstIndex (haystack needle : Str) : Option Nat :=
  firstIndexAux haystack needle 0

/-- The verb loop of `pattern.parseSegments`: split the remaining unescaped
format at the first occurrence of the verb's textual form (`SplitN _ _ 2`).
A non-empty left half becomes a segment at the running `index`; an empty left
half after a previous verb of the same kind without a max width is the fatal
consecutive-verbs error.  A missing separator makes the Go code index
`halves[1]` out of range, modelled as `goPanicSplit`. -/
def parseSegsAux : List Verb → Option Verb → Str → Nat → List Segment →
    Except Err (List Segment)
  | [], _, remainder, index, acc =>
    .ok (if remainder.length > 0 then acc ++ [⟨remainder, index, []⟩] else acc)
  | v :: rest, prev, remainder, index, acc =>
    match firstIndex remainder v.vstr with
    | none => .error .goPanicSplit
    | some k =>
      let left := remainder.take k
      let right := remainder.drop (k + v.vstr.length)
      if left.length > 0 then
        parseSegsAux rest (some v) right (index + left.length + v.vstr.length)
          (acc ++ [⟨left, index, []⟩])
      else
        match prev with
        | some pv =>
          if v.value = pv.value ∧ (pv.maxWidth).isNone then
            .error (.badArgConsecutiveVerbs v.value)
          else parseSegsAux rest (some v) right (index + v.vstr.length) acc
        | none => parseSegsAux rest (some v) right (index + v.vstr.length) acc

/-- `pattern.parseSegments` applied to the unescaped format. -/
def parseSegments (verbs : List Verb) (unescapedFormat : Str) :
    Except Err (List Segment) :=
  parseSegsAux verbs none unescapedFormat 0 []

/-- `newPattern`: parse verbs from the original format, then parse segments
from the unescaped format. -/
def newPattern (format : Str) : Except Err Pattern :=
  match parseVerbs format with
  | .error e => .error e
  | .ok verbs =>
    match parseSegments verbs (unescapeFormat format) with
    | .error e => .error e
    | .ok segments => .ok ⟨format, verbs, segments⟩

/-- The inner loop of `findAllSegmentStarts` for one segment: repeatedly
search from `offset`, record the absolute hit offset and jump the cursor past
the matched text.  `fuel` bounds the iteration count; `str.length + 1` is
enough for every non-empty segment (the cursor strictly advances). -/
def findStartsAux (str seg : Str) : Nat → Nat → List Nat
  | _, 0 => []
  | offset, fuel + 1 =>
    if offset ≤ str.length then
      match firstIndex (str.drop offset) seg with
      | none => []
      | some rel => (offset + rel) ::
          findStartsAux str seg (offset + rel + seg.length) fuel
    else []

/-- All non-overlapping leftmost occurrences of `seg` in `str`. -/
def findStarts (str seg : Str) : List Nat :=
  findStartsAux str seg 0 (str.length + 1)

/-- `pattern.findAllSegmentStarts`: fill in the `starts` of every segment in
order, failing on the first segment with no occurrence. -/
def findAllAux (str : Str) : List Segment → List Segment →
    Except Err (List Segment)
  | [], acc => .ok acc
  | s :: rest, acc =>
    let starts := findStarts str s.value
    if starts.isEmpty then .error (.noMatchSegment s.value str)
    else findAllAux str rest (acc ++ [{ s with starts := starts }])

/-- `findAllSegmentStarts` over a segment list. -/
def findAllSegmentStarts (str : Str) (segments : List Segment) :
    Except Err (List Segment) :=
  findAllAux str segments []

/-- The backward inner loop of `getTrueSegmentStarts`: scan a segment's
starts from the last to the first and take the first one that leaves room
before `bound` (`starts[j] + len(segment) < bound`). -/
def findFromEnd (starts : List Nat) (segLen bound : Nat) : Option Nat :=
  starts.reverse.find? (fun s => s + segLen < bound)

/-- The candidate-set construction of `getTrueSegmentStarts`: walk the
segments before the last one in reverse format order; for each, append the
latest occurrence that fits before the latest start already in the set (no
append when none fits, as in the source). -/
def buildChainAux : List Segment → List Nat → List Nat
  | [], set => set
  | seg :: rest, set =>
    match findFromEnd seg.starts seg.value.length (set.getLastD 0) with
    | some s => buildChainAux rest (set ++ [s])
    | none => buildChainAux rest set

/-- Insertion of `x` into an ascending list (`sort.Ints` helper). -/
def insertSorted (x : Nat) : List Nat → List Nat
  | [] => [x]
  | y :: ys => if x ≤ y then x :: y :: ys else y :: insertSorted x ys

/-- Ascending insertion sort (`sort.Ints`). -/
def sortNats : List Nat → List Nat
  | [] => []
  | x :: xs => insertSorted x (sortNats xs)

/-- `pattern.getTrueSegmentStarts`: every start of the last segment anchors a
candidate set; sets covering all segments are the complete ones; more than
one complete set is ambiguous, none is no-match, exactly one is returned
sorted ascending. -/
def getTrueSegmentStarts (segments : List Segment) : Except Err (List Nat) :=
  match segments.getLast? with
  | none => .ok []
  | some lastSeg =>
    let startSets :=
      (lastSeg.starts.map
        (fun a => buildChainAux segments.dropLast.reverse [a])).filter
        (fun set => set.length == segments.length)
    if startSets.length > 1 then .error (.multipleMatches startSets.length)
    else
      match startSets with
      | [] => .error .noMatch
      | set :: _ => .ok (sortNats set)

/-- `pattern.beginsWithVerb`. -/
def beginsWithVerb (verbs : List Verb) : Bool :=
  match verbs with
  | [] => false
  | v :: _ => v.start == 0

/-- `pattern.endsWithVerb`. -/
def endsWithVerb (verbs : List Verb) (format : Str) : Bool :=
  match verbs.getLast? with
  | none => false
  | some last => (last.start : Int) == (format.length : Int) - last.vstr.length

/-- The `range starts` loop body of `getCaptureGroups`, with explicit loop
index `i` and fuel (one unit per iteration; `ts.length` units suffice). -/
def captureLoop (verbs : List Verb) (format : Str) (segments : List Segment)
    (ts : List Nat) (str : Str) : Nat → Nat → List CaptureGroup →
    Except Err (List CaptureGroup)
  | 0, _, acc => .ok acc
  | fuel + 1, i, acc =>
    match ts.get? i with
    | none => .ok acc
    | some start =>
      let seg := segments.getD i default
      let leading : Except Err (List CaptureGroup) :=
        if i = 0 ∧ beginsWithVerb verbs then
          let vs := verbs.filter (fun v => v.start < seg.formatStart)
          let substr := str.take start
          if substr.isEmpty then
            .error (.emptyCaptureStart (verbs.headD default))
          else .ok (acc ++ [⟨substr, vs⟩])
        else .ok acc
      match leading with
      | .error e => .error e
      | .ok acc1 =>
        if i = ts.length - 1 then
          if endsWithVerb verbs format then
            let vs := verbs.filter (fun v => v.start > seg.formatStart)
            let captureFrom := start + seg.value.length
            let substr := str.drop captureFrom
            if substr.isEmpty then
              .error (.emptyCaptureEnd (verbs.getLastD default))
            else .ok (acc1 ++ [⟨substr, vs⟩])
          else .ok acc1
        else
          let nextSeg := segments.getD (i + 1) default
          let vs := verbs.filter
            (fun v => seg.formatStart < v.start ∧ v.start < nextSeg.formatStart)
          let captureFrom := start + seg.value.length
          let captureTo := ts.getD (i + 1) 0
          let substr := (str.take captureTo).drop captureFrom
          if substr.isEmpty then
            .error (.bugNoCaptureBetween seg.value nextSeg.value)
          else
            captureLoop verbs format segments ts str fuel (i + 1)
              (acc1 ++ [⟨substr, vs⟩])

/-- `pattern.getCaptureGroups`: with no resolved starts the whole input is
one group for all verbs; otherwise the loop slices the input at the resolved
boundaries; finally every group must have at least one verb. -/
def getCaptureGroups (verbs : List Verb) (format : Str)
    (segments : List Segment) (ts : List Nat) (str : Str) :
    Except Err (List CaptureGroup) :=
  let base : List CaptureGroup := if ts.isEmpty then [⟨str, verbs⟩] else []
  match captureLoop verbs format segments ts str ts.length 0 base with
  | .error e => .error e
  | .ok groups =>
    match groups.find? (fun g => g.verbs.isEmpty) with
    | some g => .error (.bugNoVerbs g.substr)
    | none => .ok groups

/-- `pattern.capture`: find occurrences, resolve the true starts, partition
into capture groups. -/
def capture (p : Pattern) (str : Str) : Except Err (List CaptureGroup) :=
  match findAllSegmentStarts str p.segments with
  | .error e => .error e
  | .ok segs =>
    match getTrueSegmentStarts segs with
    | .error e => .error e
    | .ok ts => getCaptureGroups p.verbs p.format segs ts str

/-- The runtime types of the caller-supplied target pointers accepted by the
assign functions of `assign.go`. -/
inductive Target where
  | tBool | tString
  | tInt | tInt8 | tInt16 | tInt32 | tInt64
  | tUint | tUint8 | tUint16 | tUint32 | tUint64
deriving Repr, DecidableEq

/-- A value written through a target pointer. -/
inductive Value where
  | vBool (b : Bool)
  | vString (s : Str)
  | vInt (i : Int)
  | vUint (n : Nat)
deriving Repr, DecidableEq

/-- Signed bit width selected by the type switch of `assignInt`
(`int` is 64 bits on the reference platform). -/
def Target.intBits : Target → Option Nat
  | .tInt => some 64
  | .tInt8 => some 8
  | .tInt16 => some 16
  | .tInt32 => some 32
  | .tInt64 => some 64
  | _ => none

/-- Unsigned bit width selected by the type switch of `assignInt`. -/
def Target.uintBits : Target → Option Nat
  | .tUint => some 64
  | .tUint8 => some 8
  | .tUint16 => some 16
  | .tUint32 => some 32
  | .tUint64 => some 64
  | _ => none

/-- Numeric code of a target kind (stands in for the `%T` text in the
wrong-target-type message). -/
def Target.code : Target → Nat
  | .tBool => 0 | .tString => 1
  | .tInt => 2 | .tInt8 => 3 | .tInt16 => 4 | .tInt32 => 5 | .tInt64 => 6
  | .tUint => 7 | .tUint8 => 8 | .tUint16 => 9 | .tUint32 => 10
  | .tUint64 => 11

/-- `boolRunes` of `assign.go`. -/
def boolRunes : Str := "01truefalseTRUEFALSE".toList

/-- `intRunes` of `assign.go`. -/
def intRunes : Str := "+-0123456789".toList

/-- `strconv.ParseBool`: the exact accepted literals. -/
def parseBoolGo (s : Str) : Option Bool :=
  if s = ['1'] ∨ s = ['t'] ∨ s = ['T'] ∨ s = "TRUE".toList ∨
     s = "true".toList ∨ s = "True".toList then some true
  else if s = ['0'] ∨ s = ['f'] ∨ s = ['F'] ∨ s = "FALSE".toList ∨
     s = "false".toList ∨ s = "False".toList then some false
  else none

/-- `strconv.ParseInt(s, 10, bits)`: optional single sign, non-empty digit
run, signed range check. -/
def parseIntGo (s : Str) (bits : Nat) : Option Int :=
  match s with
  | [] => none
  | c :: rest =>
    let neg := c = '-'
    let digits := if c = '-' ∨ c = '+' then rest else s
    if digits.isEmpty then none
    else if digits.all isDigitChar then
      let v := digitsVal digits
      if neg then
        if v ≤ 2 ^ (bits - 1) then some (-(v : Int)) else none
      else
        if v ≤ 2 ^ (bits - 1) - 1 then some (v : Int) else none
    else none

/-- `strconv.ParseUint(s, 10, bits)`: no sign permitted, non-empty digit run,
unsigned range check. -/
def parseUintGo (s : Str) (bits : Nat) : Option Nat :=
  if s.isEmpty then none
  else if s.all isDigitChar then
    let v := digitsVal s
    if v ≤ 2 ^ bits - 1 then some v else none
  else none

/-- `assignBool` of `assign.go`: require a `*bool` target, cut the input at
the first character outside `boolRunes` (error if that is the first
character), parse with `ParseBool`, report the number of bytes consumed. -/
def assignBoolGo (str : Str) (t : Target) : Except Err (Nat × Value) :=
  match t with
  | .tBool =>
    match str.findIdx? (fun c => !(boolRunes.contains c)) with
    | some 0 => .error (.noLeadingBoolChars str)
    | idx =>
      let s := match idx with
        | some k => str.take k
        | none => str
      match parseBoolGo s with
      | some b => .ok (s.length, .vBool b)
      | none => .error (.convBoolFailed s)
  | _ => .error (.wrongTargetType 't' t.code)

/-- `assignString` of `assign.go`: require a `*string` target and take the
whole offered slice. -/
def assignStringGo (str : Str) (t : Target) : Except Err (Nat × Value) :=
  match t with
  | .tString => .ok (str.length, .vString str)
  | _ => .error (.wrongTargetType 's' t.code)

/-- `assignInt` of `assign.go`: cut the input at the first character outside
`intRunes` (error if that is the first character), then dispatch on the
target's integer type and parse with the matching bit width. -/
def assignIntGo (str : Str) (t : Target) : Except Err (Nat × Value) :=
  match str.findIdx? (fun c => !(intRunes.contains c)) with
  | some 0 => .error (.noLeadingIntChars str)
  | idx =>
    let s := match idx with
      | some k => str.take k
      | none => str
    match t.intBits with
    | some bits =>
      match parseIntGo s bits with
      | some v => .ok (s.length, .vInt v)
      | none => .error (.convIntFailed s)
    | none =>
      match t.uintBits with
      | some bits =>
        match parseUintGo s bits with
        | some v => .ok (s.length, .vUint v)
        | none => .error (.convIntFailed s)
      | none => .error (.wrongTargetType 'd' t.code)

/-- The `assignFuncs` map dispatch; an unregistered verb character makes the
Go code call a `nil` function value. -/
def assignFuncGo (verbChar : Char) (str : Str) (t : Target) :
    Except Err (Nat × Value) :=
  if verbChar = 't' then assignBoolGo str t
  else if verbChar = 's' then assignStringGo str t
  else if verbChar = 'd' then assignIntGo str t
  else .error .goPanicNilFunc

/-- The verb loop of `pattern.assign` for one capture group: check a target
exists and text remains, trim leading whitespace, stop the offered slice at
the first whitespace and at the verb's max width, convert, then advance past
the bytes actually consumed.  Errors are wrapped with the current target
index. -/
def assignGroupVerbs (targets : List Target) (groupSubstr : Str) :
    List Verb → Str → Nat → List Value → Except Err (Str × Nat × List Value)
  | [], substr, idx, vals => .ok (substr, idx, vals)
  | v :: rest, substr, idx, vals =>
    if targets.length ≤ idx then
      .error (.assignAt idx (.bugNoTarget idx v substr))
    else if substr.isEmpty then
      .error (.assignAt idx (.allConsumed groupSubstr v))
    else
      let substr1 := substr.dropWhile isSpaceGo
      let stop0 := substr1.length
      let stop1 := match substr1.findIdx? isSpaceGo with
        | some k => k
        | none => stop0
      let stop2 := match v.maxWidth with
        | some w => if w < stop1 then w else stop1
        | none => stop1
      match assignFuncGo v.value (substr1.take stop2) (targets.getD idx .tInt) with
      | .error e => .error (.assignAt idx e)
      | .ok (n, val) =>
        let stop3 := if n < stop2 then n else stop2
        assignGroupVerbs targets groupSubstr rest (substr1.drop stop3)
          (idx + 1) (vals ++ [val])

/-- The group loop of `pattern.assign`. -/
def assignGroups (targets : List Target) : List CaptureGroup → Nat →
    List Value → Except Err (List Value)
  | [], _, vals => .ok vals
  | g :: rest, idx, vals =>
    match assignGroupVerbs targets g.substr g.verbs g.substr idx vals with
    | .error e => .error e
    | .ok (_, idx2, vals2) => assignGroups targets rest idx2 vals2

/-- `pattern.assign`. -/
def assign (_p : Pattern) (groups : List CaptureGroup)
    (targets : List Target) : Except Err (List Value) :=
  assignGroups targets groups 0 []

/-- The package-level one-shot `ScanString` of `scanner.go`: validate the
arguments, compile the format, check the target count against the verb
count, capture and assign.  The returned values are the ones written through
the target pointers, in target order. -/
def scanString (str format : Str) (targets : List Target) :
    Except Err (List Value) :=
  if format.isEmpty then .error .badArgEmptyFormat
  else if str.isEmpty then .error .badArgEmptyStr
  else if targets.isEmpty then .error .badArgNoTargets
  else
    match newPattern format with
    | .error e => .error e
    | .ok p =>
      if targets.length ≠ p.verbs.length then
        .error (.countMismatch targets.length p.verbs.length)
      else
        match capture p str with
        | .error e => .error e
        | .ok groups => assign p groups targets

/-! ## Specification-side definitions

The following definitions restate spec/claim wording; the theorems below
relate them to the embedded code. -/

/-- Position `i` is a genuine occurrence of `seg` in `str`: `seg` is a prefix
of the suffix of `str` that begins at `i`. -/
def OccursAt (str seg : Str) (i : Nat) : Prop := seg <+: str.drop i

/-- The leftmost-first non-overlapping occurrence scan of spec §4.2:
starting at a cursor, each recorded offset is the least occurrence at or
after the cursor, and the cursor then advances past the whole matched
segment; the scan ends when no occurrence remains at or after the cursor. -/
inductive ScanFrom (str seg : Str) : Nat → List Nat → Prop
  | nil (cursor : Nat) (h : ∀ i, cursor ≤ i → ¬ OccursAt str seg i) :
      ScanFrom str seg cursor []
  | cons (cursor o : Nat) (L : List Nat) (hle : cursor ≤ o)
      (ho : OccursAt str seg o)
      (hmin : ∀ i, cursor ≤ i → i < o → ¬ OccursAt str seg i)
      (rest : ScanFrom str seg (o + seg.length) L) :
      ScanFrom str seg cursor (o :: L)

/-- Room check between an offset (with its segment length) and the next
chosen offset, if any. -/
def gapOK (o len : Nat) : List Nat → Bool
  | [] => true
  | o2 :: _ => decide (o + len < o2)

/-- A complete in-order non-overlapping alignment (claim C2 wording): one
offset per segment, each drawn from that segment's recorded occurrence list,
with every segment ending strictly before the next one starts. -/
def alignOK : List Segment → List Nat → Bool
  | [], [] => true
  | seg :: rest, o :: os =>
    seg.starts.contains o && gapOK o seg.value.length os && alignOK rest os
  | _, _ => false

/-- Offsets for a list of segments processed in reverse format order (the
order `buildChainAux` walks them): each offset is a member of its segment's
occurrence list and leaves at least one byte of room below the previously
chosen offset. -/
inductive RevAlignOK : List Segment → Nat → List Nat → Prop
  | nil (bound : Nat) : RevAlignOK [] bound []
  | cons (seg : Segment) (rest : List Segment) (bound o : Nat) (os : List Nat)
      (hmem : o ∈ seg.starts) (hlt : o + seg.value.length < bound)
      (h : RevAlignOK rest o os) : RevAlignOK (seg :: rest) bound (o :: os)

/-- What `getTrueSegmentStarts` guarantees about a successful result: one
offset per segment, each from its segment's occurrence list, consecutive
offsets separated by more than the earlier segment's length. -/
def TrueStartsOK (segs : List Segment) (ts : List Nat) : Prop :=
  ts.length = segs.length ∧
  (∀ i, i < ts.length → ts.getD i 0 ∈ (segs.getD i default).starts) ∧
  (∀ i, i + 1 < ts.length →
    ts.getD i 0 + (segs.getD i default).value.length < ts.getD (i + 1) 0)

/-- The first maximal contiguous run of decimal digits in a flag list
(claim C10 wording). -/
def firstDigitRun (flags : List Char) : List Char :=
  (flags.dropWhile (fun c => !(isDigitChar c))).takeWhile isDigitChar

/-! ## Concrete instances named by individual claims -/

/-- Format of claim C1. -/
def fmtC1 : Str := "and a %d and a %d and a %d!".toList

/-- Input of claim C1. -/
def strC1 : Str := "and a 1 and a 2 and 3! and a 2 and a 3 and a 4!".toList

/-- The compiled pattern of claim C1's format. -/
def pC1 : Pattern :=
  ⟨fmtC1, [⟨'d', 6, []⟩, ⟨'d', 15, []⟩, ⟨'d', 24, []⟩],
   [⟨"and a ".toList, 0, []⟩, ⟨" and a ".toList, 8, []⟩,
    ⟨" and a ".toList, 17, []⟩, ⟨"!".toList, 26, []⟩]⟩

/-- C1's segments with the occurrence lists the finder records. -/
def segsC1 : List Segment :=
  [⟨"and a ".toList, 0, [0, 8, 23, 31, 39]⟩,
   ⟨" and a ".toList, 8, [7, 22, 30, 38]⟩,
   ⟨" and a ".toList, 17, [7, 22, 30, 38]⟩,
   ⟨"!".toList, 26, [21, 46]⟩]

/-- Format of the C2 counterexample. -/
def fmtC2 : Str := "a%db%dc".toList

/-- Input of the C2 counterexample. -/
def strC2 : Str := "a1b2b3c".toList

/-- The compiled pattern of the C2 counterexample format. -/
def pC2 : Pattern :=
  ⟨fmtC2, [⟨'d', 1, []⟩, ⟨'d', 4, []⟩],
   [⟨['a'], 0, []⟩, ⟨['b'], 3, []⟩, ⟨['c'], 6, []⟩]⟩

/-- The C2 counterexample segments with recorded occurrence lists. -/
def segsC2 : List Segment :=
  [⟨['a'], 0, [0]⟩, ⟨['b'], 3, [2, 4]⟩, ⟨['c'], 6, [6]⟩]

/-- The compiled pattern of C3's failing format `a%%%%b%dc`: two escaped
percents shift the verb's offset in the original format (6) past the next
segment's offset in the unescaped format (6, for segment `c`). -/
def pC3 : Pattern :=
  ⟨"a%%%%b%dc".toList, [⟨'d', 6, []⟩],
   [⟨"a%%b".toList, 0, []⟩, ⟨['c'], 6, []⟩]⟩

/-! ## Theorems -/

/-- Claim C1: scanning `"and a %d and a %d and a %d!"` against
`"and a 1 and a 2 and 3! and a 2 and a 3 and a 4!"` with three integer
targets succeeds and assigns 2, 3 and 4; the resolver picks the
trailing-anchored alignment `[23, 30, 38, 46]` even though a complete
alignment starting at the input's first `"and a "` occurrence
(`[0, 7, 30, 46]`) also exists. -/
theorem C1_tightest_trailing_alignment :
    scanString strC1 fmtC1 [.tInt, .tInt, .tInt] =
      .ok [.vInt 2, .vInt 3, .vInt 4] ∧
    newPattern fmtC1 = .ok pC1 ∧
    findAllSegmentStarts strC1 pC1.segments = .ok segsC1 ∧
    getTrueSegmentStarts segsC1 = .ok [23, 30, 38, 46] ∧
    alignOK segsC1 [0, 7, 30, 46] = true :=
  ⟨rfl, rfl, rfl, rfl, rfl⟩

/-- Claim C2 counterexample: on format `"a%db%dc"` and input `"a1b2b3c"`
two distinct complete in-order non-overlapping alignments of the literal
segments exist (`[0, 2, 6]` and `[0, 4, 6]`), yet the scan does not fail
with MultipleMatches: it succeeds, silently picking the tighter alignment
and assigning 1 and 3. -/
theorem C2_counterexample_silent_pick :
    newPattern fmtC2 = .ok pC2 ∧
    findAllSegmentStarts strC2 pC2.segments = .ok segsC2 ∧
    alignOK segsC2 [0, 2, 6] = true ∧
    alignOK segsC2 [0, 4, 6] = true ∧
    ([0, 2, 6] : List Nat) ≠ [0, 4, 6] ∧
    scanString strC2 fmtC2 [.tInt, .tInt] = .ok [.vInt 1, .vInt 3] :=
  ⟨rfl, rfl, rfl, rfl, by decide, rfl⟩

/-- Claim C3: the verb-less capture group "bug" branch is reachable.  The
format `"a%%%%b%dc"` is accepted by compilation, and capturing from the
input `"a%%b9c"` (which matches both literal segments and resolves a unique
alignment) produces a capture group `"9"` with no verbs, so the one-shot
scan returns the internal-inconsistency error — which is not a BadArgument
error: verb offsets are taken in the original (escaped) format while segment
offsets are taken in the unescaped format, and the two `%%` escapes before
the verb make its offset (6) fall outside the open interval (0, 6) between
the two segments' offsets. -/
theorem C3_verbless_group_reachable :
    newPattern "a%%%%b%dc".toList = .ok pC3 ∧
    scanString "a%%b9c".toList "a%%%%b%dc".toList [.tInt] =
      .error (.bugNoVerbs ['9']) ∧
    Err.isBadArg (.bugNoVerbs ['9']) = false :=
  ⟨rfl, rfl, rfl⟩

/-- Claim C4: when the split at a verb leaves an empty left half (an empty
literal between this verb and the previous one), compilation fails with the
BadArgument consecutive-verbs error exactly when the two verbs have the same
kind and the earlier one declares no max width, and otherwise continues with
this verb accepted; concretely, `"%d%d"` is rejected while `"%d%s"`
(different kinds) and `"%3d%d"` (width on the earlier verb) compile. -/
theorem C4_consecutive_verbs_rule :
    (∀ (pv v : Verb) (rest : List Verb) (rem : Str) (idx : Nat)
       (acc : List Segment), firstIndex rem v.vstr = some 0 →
       parseSegsAux (v :: rest) (some pv) rem idx acc =
         if v.value = pv.value ∧ (pv.maxWidth).isNone then
           .error (.badArgConsecutiveVerbs v.value)
         else parseSegsAux rest (some v) (rem.drop v.vstr.length)
           (idx + v.vstr.length) acc) ∧
    (∀ c, Err.isBadArg (.badArgConsecutiveVerbs c) = true) ∧
    newPattern "%d%d".toList = .error (.badArgConsecutiveVerbs 'd') ∧
    (∃ p, newPattern "%d%s".toList = .ok p) ∧
    (∃ p, newPattern "%3d%d".toList = .ok p) := by
  refine ⟨?_, fun _ => rfl, rfl, ⟨_, rfl⟩, ⟨_, rfl⟩⟩
  intro pv v rest rem idx acc h
  simp [parseSegsAux, h]

/-- Witness for C4: the step equation applied to the two adjacent `%d` verbs
of format `"%d%d"` (previous verb `%d` at 0, current `%d` at 2, remaining
unescaped format `"%d"`), discharging the split hypothesis by computation;
with same kinds and no width the condition holds and the step errors. -/
theorem C4_consecutive_verbs_rule_witness :
    parseSegsAux [⟨'d', 2, []⟩] (some ⟨'d', 0, []⟩) "%d".toList 2 [] =
      if ('d' : Char) = 'd' ∧ ((⟨'d', 0, []⟩ : Verb).maxWidth).isNone then
        .error (.badArgConsecutiveVerbs 'd')
      else parseSegsAux [] (some ⟨'d', 2, []⟩)
        ("%d".toList.drop (Verb.vstr ⟨'d', 2, []⟩).length)
        (2 + (Verb.vstr ⟨'d', 2, []⟩).length) [] :=
  C4_consecutive_verbs_rule.1 ⟨'d', 0, []⟩ ⟨'d', 2, []⟩ [] "%d".toList 2 [] rfl

/-- Claim C5: scanning `"%d%% of %d is %d"` against `"50% of 100 is 50"`
with three integer targets succeeds and assigns 50, 100 and 50 — the `%%`
escape matches a literal `%` in the input rather than acting as a verb. -/
theorem C5_percent_escape :
    scanString "50% of 100 is 50".toList "%d%% of %d is %d".toList
      [.tInt, .tInt, .tInt] = .ok [.vInt 50, .vInt 100, .vInt 50] := rfl

/-- Claim C8: scanning `"%d%s"` against `"   123456foo"` succeeds with the
integer 123456 and the string `"foo"`; the integer converter consumes
exactly the six leading numeric bytes of the offered slice `"123456foo"`
and the string verb receives only the remainder. -/
theorem C8_adjacent_verb_consumption :
    scanString "   123456foo".toList "%d%s".toList [.tInt, .tString] =
      .ok [.vInt 123456, .vString "foo".toList] ∧
    assignIntGo "123456foo".toList .tInt = .ok (6, .vInt 123456) :=
  ⟨rfl, rfl⟩

/-- Claim C9 counterexample: a target count different from the verb count
(two targets for the one verb of `"%d"`) makes the one-shot scan fail with
the count-mismatch error, but that error is not a BadArgument-kind error
(the source builds it without wrapping `ErrBadArg`). -/
theorem C9_counterexample_mismatch_not_badarg :
    scanString ['5'] "%d".toList [.tInt, .tInt] =
      .error (.countMismatch 2 1) ∧
    Err.isBadArg (.countMismatch 2 1) = false :=
  ⟨rfl, rfl⟩

/-- Claim C9 (amended): the one-shot scan returns a BadArgument-kind error
for an empty format, an empty input, and zero targets; a target count
different from the compiled format's verb count is also a fatal error, but
one that is not BadArgument-kind. -/
theorem C9_entry_point_argument_errors :
    ∀ (str format : Str) (targets : List Target) (p : Pattern),
    (format = [] →
       scanString str format targets = .error .badArgEmptyFormat ∧
       Err.isBadArg .badArgEmptyFormat = true) ∧
    (format ≠ [] → str = [] →
       scanString str format targets = .error .badArgEmptyStr ∧
       Err.isBadArg .badArgEmptyStr = true) ∧
    (format ≠ [] → str ≠ [] → targets = [] →
       scanString str format targets = .error .badArgNoTargets ∧
       Err.isBadArg .badArgNoTargets = true) ∧
    (format ≠ [] → str ≠ [] → targets ≠ [] → newPattern format = .ok p →
       targets.length ≠ p.verbs.length →
       scanString str format targets =
         .error (.countMismatch targets.length p.verbs.length) ∧
       Err.isBadArg (.countMismatch targets.length p.verbs.length) = false) := by
  intro str format targets p
  refine ⟨?_, ?_, ?_, ?_⟩
  · intro h; subst h; exact ⟨rfl, rfl⟩
  · intro hf hs; subst hs
    exact ⟨by simp [scanString, List.isEmpty_iff, hf], rfl⟩
  · intro hf hs ht; subst ht
    exact ⟨by simp [scanString, List.isEmpty_iff, hf, hs], rfl⟩
  · intro hf hs ht hp hn
    exact ⟨by simp [scanString, List.isEmpty_iff, hf, hs, ht, hp, hn], rfl⟩

/-- Witness for C9: the amended theorem applied at format `"%d"`, input
`"5"` and two integer targets, every hypothesis discharged by computation. -/
theorem C9_entry_point_argument_errors_witness :
    scanString ['5'] "%d".toList [.tInt, .tInt] =
      .error (.countMismatch 2 1) ∧
    Err.isBadArg (.countMismatch 2 1) = false :=
  (C9_entry_point_argument_errors ['5'] "%d".toList [.tInt, .tInt]
    ⟨"%d".toList, [⟨'d', 0, []⟩], []⟩).2.2.2
    (by decide) (by decide) (by decide) rfl (by decide)

/-- Claim C10 counterexample: a verb whose flags are nineteen `'9'`
characters has a (first and only) digit run of value `10^19 - 1`, which
exceeds the 64-bit `int` range, so `strconv.Atoi` fails and `maxWidth`
reports that no width is present even though the flag list contains
digits. -/
theorem C10_counterexample_overflow :
    Verb.maxWidth ⟨'d', 0, List.replicate 19 '9'⟩ = none ∧
    (List.replicate 19 '9').any isDigitChar = true :=
  ⟨rfl, rfl⟩

/-- The digit-collecting loop in taking mode is `takeWhile`. -/
theorem takeWidth_true_eq (flags : List Char) :
    takeWidth flags true = flags.takeWhile isDigitChar := by
  induction flags with
  | nil => rfl
  | cons f rest ih =>
    by_cases h : isDigitChar f = true
    · simp [takeWidth, List.takeWhile_cons, h, ih]
    · simp [takeWidth, List.takeWhile_cons, h]

/-- The digit-collecting loop of `maxWidth` collects exactly the first
maximal contiguous digit run of the flag list. -/
theorem takeWidth_false_eq (flags : List Char) :
    takeWidth flags false = firstDigitRun flags := by
  induction flags with
  | nil => rfl
  | cons f rest ih =>
    by_cases h : isDigitChar f = true
    · simp [takeWidth, firstDigitRun, List.dropWhile_cons, h,
        takeWidth_true_eq, List.takeWhile_cons]
    · simpa [takeWidth, firstDigitRun, List.dropWhile_cons, h] using ih

/-- A flag list contains a digit exactly when its first digit run is
non-empty. -/
theorem any_digit_eq_run_nonempty (flags : List Char) :
    flags.any isDigitChar = !(firstDigitRun flags).isEmpty := by
  induction flags with
  | nil => rfl
  | cons f rest ih =>
    by_cases h : isDigitChar f = true
    · simp [firstDigitRun, List.dropWhile_cons, h, List.takeWhile_cons,
        List.any_cons]
    · simp [firstDigitRun, List.dropWhile_cons, h, List.any_cons, ih]

/-- Claim C10 (amended): `maxWidth` returns the decimal value of the first
maximal contiguous digit run appearing anywhere in the verb's flag list —
not only as a prefix (flags `.2` yield width 2; flags `1.2` yield width 1) —
and reports that no width is present exactly when the flag list contains no
digit **or the run's decimal value exceeds the 64-bit `int` maximum**
(`strconv.Atoi` overflow); a run consisting only of `'0'` yields width 0,
reported as present. -/
theorem C10_maxWidth_first_digit_run :
    (∀ v : Verb, Verb.maxWidth v =
      (let run := firstDigitRun v.flags
       if run.isEmpty then none
       else if digitsVal run ≤ maxInt64 then some (digitsVal run)
       else none)) ∧
    (∀ v : Verb, (Verb.maxWidth v = none ↔
      v.flags.any isDigitChar = false ∨
        maxInt64 < digitsVal (firstDigitRun v.flags))) ∧
    Verb.maxWidth ⟨'s', 0, ['.', '2']⟩ = some 2 ∧
    Verb.maxWidth ⟨'s', 0, ['1', '.', '2']⟩ = some 1 ∧
    Verb.maxWidth ⟨'s', 0, ['0']⟩ = some 0 := by
  have key : ∀ v : Verb, Verb.maxWidth v =
      (let run := firstDigitRun v.flags
       if run.isEmpty then none
       else if digitsVal run ≤ maxInt64 then some (digitsVal run)
       else none) := by
    intro v
    simp only [Verb.maxWidth, takeWidth_false_eq]
  refine ⟨key, ?_, rfl, rfl, rfl⟩
  intro v
  rw [key v, any_digit_eq_run_nonempty]
  by_cases hrun : (firstDigitRun v.flags).isEmpty = true
  · simp [hrun]
  · by_cases hval : digitsVal (firstDigitRun v.flags) ≤ maxInt64
    · simp [hrun, hval, Nat.not_lt.mpr hval]
    · simp [hrun, hval, Nat.lt_of_not_le hval]

/-- A successful `firstIndexAux` search: the hit is at or after the running
index, lies within the haystack, the needle is a prefix at the hit, and no
earlier offset into the haystack carries the needle. -/
theorem firstIndexAux_some {n : Str} :
    ∀ {h : Str} {i k : Nat}, firstIndexAux h n i = some k →
      i ≤ k ∧ k - i ≤ h.length ∧ n <+: h.drop (k - i) ∧
      ∀ j, j < k - i → ¬ n <+: h.drop j := by
  intro h
  induction h with
  | nil =>
    intro i k hk
    by_cases hp : n.isPrefixOf ([] : Str) = true
    · simp only [firstIndexAux, hp, if_true, Option.some.injEq] at hk
      subst hk
      exact ⟨Nat.le_refl _, by simp,
        by simpa using List.isPrefixOf_iff_prefix.mp hp, by omega⟩
    · simp [firstIndexAux, hp] at hk
  | cons c t ih =>
    intro i k hk
    by_cases hp : n.isPrefixOf (c :: t) = true
    · simp only [firstIndexAux, hp, if_true, Option.some.injEq] at hk
      subst hk
      exact ⟨Nat.le_refl _, by simp,
        by simpa using List.isPrefixOf_iff_prefix.mp hp, by omega⟩
    · simp only [firstIndexAux, hp, if_false, Bool.false_eq_true] at hk
      obtain ⟨h1, h2, h3, h4⟩ := ih hk
      refine ⟨by omega, by simp; omega, ?_, ?_⟩
      · have hd : (c :: t).drop (k - i) = t.drop (k - (i + 1)) := by
          have hki : k - i = (k - (i + 1)) + 1 := by omega
          rw [hki, List.drop_succ_cons]
        rw [hd]; exact h3
      · intro j hj
        match j with
        | 0 =>
          intro hpre
          exact hp (List.isPrefixOf_iff_prefix.mpr (by simpa using hpre))
        | j' + 1 =>
          rw [List.drop_succ_cons]
          exact h4 j' (by omega)

/-- A failed `firstIndexAux` search: the needle occurs at no offset. -/
theorem firstIndexAux_none {n : Str} :
    ∀ {h : Str} {i : Nat}, firstIndexAux h n i = none →
      ∀ j, ¬ n <+: h.drop j := by
  intro h
  induction h with
  | nil =>
    intro i hk j hpre
    by_cases hp : n.isPrefixOf ([] : Str) = true
    · simp [firstIndexAux, hp] at hk
    · rw [List.drop_nil] at hpre
      exact hp (List.isPrefixOf_iff_prefix.mpr hpre)
  | cons c t ih =>
    intro i hk j hpre
    by_cases hp : n.isPrefixOf (c :: t) = true
    · simp [firstIndexAux, hp] at hk
    · simp only [firstIndexAux, hp, if_false, Bool.false_eq_true] at hk
      match j with
      | 0 => exact hp (List.isPrefixOf_iff_prefix.mpr (by simpa using hpre))
      | j' + 1 =>
        rw [List.drop_succ_cons] at hpre
        exact ih hk j' hpre

/-- `firstIndex` characterization on success. -/
theorem firstIndex_some {h n : Str} {k : Nat}
    (hk : firstIndex h n = some k) :
    k ≤ h.length ∧ n <+: h.drop k ∧ ∀ j, j < k → ¬ n <+: h.drop j := by
  obtain ⟨_, h2, h3, h4⟩ := firstIndexAux_some hk
  simpa using ⟨h2, h3, h4⟩

/-- `firstIndex` characterization on failure. -/
theorem firstIndex_none {h n : Str} (hk : firstIndex h n = none) :
    ∀ j, ¬ n <+: h.drop j :=
  firstIndexAux_none hk

/-- Every offset recorded by the occurrence scan lies between the starting
cursor and the end of the input and is a genuine occurrence. -/
theorem findStartsAux_mem {str seg : Str} :
    ∀ {fuel offset o : Nat}, o ∈ findStartsAux str seg offset fuel →
      offset ≤ o ∧ o ≤ str.length ∧ OccursAt str seg o := by
  intro fuel
  induction fuel with
  | zero => intro offset o ho; simp [findStartsAux] at ho
  | succ f ih =>
    intro offset o ho
    by_cases hoff : offset ≤ str.length
    · rw [findStartsAux, if_pos hoff] at ho
      match hfi : firstIndex (str.drop offset) seg with
      | none => rw [hfi] at ho; simp at ho
      | some rel =>
        rw [hfi] at ho
        obtain ⟨hk, hpre, _⟩ := firstIndex_some hfi
        have hdl : (str.drop offset).length = str.length - offset := by simp
        rcases List.mem_cons.mp ho with rfl | ho
        · refine ⟨by omega, by omega, ?_⟩
          unfold OccursAt
          rw [← List.drop_drop]
          exact hpre
        · obtain ⟨ih1, ih2, ih3⟩ := ih ho
          exact ⟨by omega, ih2, ih3⟩
    · rw [findStartsAux, if_neg hoff] at ho
      simp at ho

/-- Consecutive recorded offsets are separated by at least the segment
length (the cursor jumps past each hit). -/
theorem findStartsAux_pairwise {str seg : Str} :
    ∀ {fuel offset : Nat},
      (findStartsAux str seg offset fuel).Pairwise
        (fun a b => a + seg.length ≤ b) := by
  intro fuel
  induction fuel with
  | zero => intro offset; simp [findStartsAux]
  | succ f ih =>
    intro offset
    by_cases hoff : offset ≤ str.length
    · rw [findStartsAux, if_pos hoff]
      match hfi : firstIndex (str.drop offset) seg with
      | none => simp
      | some rel =>
        refine List.Pairwise.cons ?_ ih
        intro b hb
        have := (findStartsAux_mem hb).1
        omega
    · rw [findStartsAux, if_neg hoff]; simp

/-- The recorded occurrence list is weakly sorted. -/
theorem findStarts_sorted_le (str seg : Str) :
    (findStarts str seg).Pairwise (· ≤ ·) :=
  findStartsAux_pairwise.imp (by omega)

/-- With enough fuel (one unit per remaining input position), the fueled
occurrence scan realizes the leftmost-first non-overlapping scan relation
from any cursor.  Non-emptiness of the segment guarantees the cursor
strictly advances. -/
theorem scanFrom_findStartsAux {str seg : Str} (hseg : seg ≠ []) :
    ∀ {fuel offset : Nat}, str.length + 1 ≤ fuel + offset →
      ScanFrom str seg offset (findStartsAux str seg offset fuel) := by
  have hlen1 : 1 ≤ seg.length := List.length_pos.mpr hseg
  have hnocc : ∀ i, str.length < i → ¬ OccursAt str seg i := by
    intro i hi hocc
    have h1 : seg.length ≤ (str.drop i).length := hocc.length_le
    have h2 : (str.drop i).length = str.length - i := by simp
    omega
  intro fuel
  induction fuel with
  | zero =>
    intro offset hfo
    rw [findStartsAux]
    exact ScanFrom.nil _ (fun i hi => hnocc i (by omega))
  | succ f ih =>
    intro offset hfo
    by_cases hoff : offset ≤ str.length
    · rw [findStartsAux, if_pos hoff]
      match hfi : firstIndex (str.drop offset) seg with
      | none =>
        refine ScanFrom.nil _ ?_
        intro i hi hocc
        have := firstIndex_none hfi (i - offset)
        rw [List.drop_drop] at this
        have heq : offset + (i - offset) = i := by omega
        rw [heq] at this
        exact this hocc
      | some rel =>
        obtain ⟨hk, hpre, hmin⟩ := firstIndex_some hfi
        refine ScanFrom.cons _ _ _ (Nat.le_add_right _ _) ?_ ?_ ?_
        · unfold OccursAt
          rw [← List.drop_drop]
          exact hpre
        · intro i hi hio hocc
          have := hmin (i - offset) (by omega)
          rw [List.drop_drop] at this
          have heq : offset + (i - offset) = i := by omega
          rw [heq] at this
          exact this hocc
        · exact ih (by omega)
    · rw [findStartsAux, if_neg hoff]
      exact ScanFrom.nil _ (fun i hi => hnocc i (by omega))

/-- The leftmost-first non-overlapping scan relation is deterministic. -/
theorem scanFrom_unique {str seg : Str} :
    ∀ {c : Nat} {L1 L2 : List Nat}, ScanFrom str seg c L1 →
      ScanFrom str seg c L2 → L1 = L2 := by
  intro c L1 L2 h1
  induction h1 generalizing L2 with
  | nil c h =>
    intro h2
    cases h2 with
    | nil _ => rfl
    | cons _ o L hle ho hmin rest => exact absurd ho (h o hle)
  | cons c o L hle ho hmin rest ih =>
    intro h2
    cases h2 with
    | nil _ h => exact absurd ho (h o hle)
    | cons _ o2 L2' hle2 ho2 hmin2 rest2 =>
      have hoo : o = o2 := by
        by_contra hne
        rcases Nat.lt_or_ge o o2 with hlt | hge
        · exact hmin2 o hle hlt ho
        · exact hmin o2 hle2 (by omega) ho2
      subst hoo
      rw [ih rest2]

/-- `findAllSegmentStarts` fails on the first segment whose occurrence list
is empty, naming that segment's text and the input. -/
theorem findAllAux_first_empty (str : Str) :
    ∀ (pre : List Segment) (s : Segment) (rest acc : List Segment),
      (∀ t ∈ pre, findStarts str t.value ≠ []) →
      findStarts str s.value = [] →
      findAllAux str (pre ++ s :: rest) acc =
        .error (.noMatchSegment s.value str) := by
  intro pre
  induction pre with
  | nil =>
    intro s rest acc _ hs
    simp only [List.nil_append, findAllAux]
    rw [if_pos (by simp [hs])]
  | cons t pre ih =>
    intro s rest acc hpre hs
    have ht : findStarts str t.value ≠ [] := hpre t (by simp)
    simp only [List.cons_append, findAllAux]
    rw [if_neg (by simpa [List.isEmpty_iff] using ht)]
    exact ih s rest _ (fun u hu => hpre u (by simp [hu])) hs

/-- Claim C6: for every input and every (non-empty) segment, the occurrence
list the finder records is exactly the list produced by the leftmost-first
non-overlapping scan (`ScanFrom`, which is deterministic), it is strictly
increasing, every recorded offset is a real occurrence of the segment text,
and the finder fails immediately with the NoMatch error naming the segment
text and the input on the first segment whose list is empty. -/
theorem C6_occurrence_finder :
    (∀ str seg : Str, seg ≠ [] →
       ScanFrom str seg 0 (findStarts str seg) ∧
       (findStarts str seg).Pairwise (· < ·) ∧
       ∀ o ∈ findStarts str seg, OccursAt str seg o) ∧
    (∀ (str seg : Str) (c : Nat) (L1 L2 : List Nat),
       ScanFrom str seg c L1 → ScanFrom str seg c L2 → L1 = L2) ∧
    (∀ (str : Str) (pre : List Segment) (s : Segment)
       (rest acc : List Segment),
       (∀ t ∈ pre, findStarts str t.value ≠ []) →
       findStarts str s.value = [] →
       findAllAux str (pre ++ s :: rest) acc =
         .error (.noMatchSegment s.value str)) := by
  refine ⟨?_, fun _ _ _ _ _ => scanFrom_unique, findAllAux_first_empty⟩
  intro str seg hseg
  have hlen1 : 1 ≤ seg.length := List.length_pos.mpr hseg
  refine ⟨scanFrom_findStartsAux hseg (by omega), ?_, ?_⟩
  · exact findStartsAux_pairwise.imp (by omega)
  · intro o ho
    exact (findStartsAux_mem ho).2.2

/-- `buildChainAux` only ever appends to the candidate set. -/
theorem buildChainAux_prefix : ∀ (L : List Segment) (set : List Nat),
    ∃ extra, buildChainAux L set = set ++ extra := by
  intro L
  induction L with
  | nil => intro set; exact ⟨[], by simp [buildChainAux]⟩
  | cons seg rest ih =>
    intro set
    rw [buildChainAux]
    cases hf : findFromEnd seg.starts seg.value.length (set.getLastD 0) with
    | none => exact ih set
    | some s =>
      obtain ⟨extra, hx⟩ := ih (set ++ [s])
      exact ⟨s :: extra, by simpa using hx⟩

/-- The candidate set gains at most one element per processed segment. -/
theorem buildChainAux_length_le : ∀ (L : List Segment) (set : List Nat),
    (buildChainAux L set).length ≤ set.length + L.length := by
  intro L
  induction L with
  | nil => intro set; simp [buildChainAux]
  | cons seg rest ih =>
    intro set
    rw [buildChainAux]
    cases hf : findFromEnd seg.starts seg.value.length (set.getLastD 0) with
    | none =>
      have := ih set
      simp only [List.length_cons]
      omega
    | some s =>
      have := ih (set ++ [s])
      simp only [List.length_append, List.length_cons, List.length_nil]
        at this ⊢
      omega

/-- A candidate set that gained one element per processed segment (a
complete chain) decodes, beyond its seed, to a `RevAlignOK` selection
anchored at the seed's last element. -/
theorem buildChainAux_complete_rev :
    ∀ (L : List Segment) (set : List Nat),
      (buildChainAux L set).length = set.length + L.length →
      RevAlignOK L (set.getLastD 0) ((buildChainAux L set).drop set.length) := by
  intro L
  induction L with
  | nil =>
    intro set _
    rw [buildChainAux, List.drop_length]
    exact RevAlignOK.nil _
  | cons seg rest ih =>
    intro set hlen
    cases hf : findFromEnd seg.starts seg.value.length (set.getLastD 0) with
    | none =>
      simp only [buildChainAux, hf] at hlen
      have := buildChainAux_length_le rest set
      simp only [List.length_cons] at hlen
      omega
    | some s =>
      simp only [buildChainAux, hf] at hlen ⊢
      have h2 : (buildChainAux rest (set ++ [s])).length =
          (set ++ [s]).length + rest.length := by
        simp only [List.length_append, List.length_cons, List.length_nil]
          at hlen ⊢
        omega
      have ihr := ih (set ++ [s]) h2
      rw [List.getLastD_concat] at ihr
      obtain ⟨extra, hx⟩ := buildChainAux_prefix rest (set ++ [s])
      have hd1 : (buildChainAux rest (set ++ [s])).drop set.length =
          s :: extra := by
        rw [hx, List.append_assoc, List.drop_left]
        rfl
      have hd2 : (buildChainAux rest (set ++ [s])).drop (set ++ [s]).length =
          extra := by
        rw [hx, List.drop_left]
      rw [hd2] at ihr
      rw [hd1]
      have hfp := List.find?_some hf
      have hfm := List.mem_of_find?_eq_some hf
      exact RevAlignOK.cons _ _ _ _ _ (List.mem_reverse.mp hfm)
        (of_decide_eq_true hfp) ihr

/-- A `RevAlignOK` selection prefixed with its bound is strictly
decreasing. -/
theorem revAlignOK_pairwise_gt :
    ∀ {L : List Segment} {b : Nat} {os : List Nat}, RevAlignOK L b os →
      (b :: os).Pairwise (· > ·) := by
  intro L b os h
  induction h with
  | nil bound => simp
  | cons seg rest bound o os hmem hlt h ih =>
    refine List.Pairwise.cons ?_ ih
    intro x hx
    rcases List.mem_cons.mp hx with rfl | hx
    · omega
    · have := List.rel_of_pairwise_cons ih hx
      omega

/-- Inserting an element greater than everything in a list appends it. -/
theorem insertSorted_of_lt (x : Nat) :
    ∀ (l : List Nat), (∀ y ∈ l, y < x) → insertSorted x l = l ++ [x] := by
  intro l
  induction l with
  | nil => intro _; rfl
  | cons y ys ih =>
    intro h
    have hxy : ¬ x ≤ y := by have := h y (by simp); omega
    rw [insertSorted, if_neg hxy, ih (fun z hz => h z (by simp [hz]))]
    rfl

/-- Sorting a strictly decreasing list reverses it. -/
theorem sortNats_of_desc : ∀ {l : List Nat}, l.Pairwise (· > ·) →
    sortNats l = l.reverse := by
  intro l
  induction l with
  | nil => intro _; rfl
  | cons x xs ih =>
    intro h
    rw [sortNats, ih h.of_cons, insertSorted_of_lt]
    · simp
    · intro y hy
      exact List.rel_of_pairwise_cons h (List.mem_reverse.mp hy)

/-- `getLastD` as a `getD` at the last index. -/
theorem getLastD_eq_getD {α : Type _} : ∀ (l : List α) (d : α),
    l.getLastD d = l.getD (l.length - 1) d := by
  intro l
  induction l with
  | nil => intro d; rfl
  | cons x xs ih =>
    intro d
    rw [List.getLastD_cons]
    cases xs with
    | nil => rfl
    | cons y ys =>
      rw [ih x]
      simp only [List.length_cons, Nat.add_sub_cancel]
      rw [List.getD_cons_succ,
        List.getD_eq_getElem _ x (by simp), List.getD_eq_getElem _ d (by simp)]

/-- Appending one more resolved segment and offset to a `TrueStartsOK` pair
preserves it, provided the new offset is an occurrence of the new segment
and leaves a gap after the previous last offset. -/
theorem trueStartsOK_snoc {segs : List Segment} {ts : List Nat}
    (h : TrueStartsOK segs ts) {s : Segment} {b : Nat}
    (hmem : b ∈ s.starts)
    (hgap : ts ≠ [] →
      ts.getLastD 0 + (segs.getLastD default).value.length < b) :
    TrueStartsOK (segs ++ [s]) (ts ++ [b]) := by
  obtain ⟨hlen, hmems, hgaps⟩ := h
  refine ⟨by simp [hlen], ?_, ?_⟩
  · intro i hi
    simp only [List.length_append, List.length_cons, List.length_nil] at hi
    by_cases hil : i < ts.length
    · rw [List.getD_append _ _ _ _ hil, List.getD_append _ _ _ _ (by omega)]
      exact hmems i hil
    · have hieq : i = ts.length := by omega
      subst hieq
      rw [List.getD_append_right _ _ _ _ (by omega),
          List.getD_append_right _ _ _ _ (by omega)]
      simp only [Nat.sub_self, hlen, List.getD_cons_zero]
      exact hmem
  · intro i hi
    simp only [List.length_append, List.length_cons, List.length_nil] at hi
    by_cases hil : i + 1 < ts.length
    · rw [List.getD_append _ _ _ _ (by omega), List.getD_append _ _ _ _ hil,
          List.getD_append _ _ _ _ (by omega)]
      exact hgaps i hil
    · have hi1 : i + 1 = ts.length := by omega
      have hne : ts ≠ [] := by
        intro h0
        rw [h0] at hi1
        simp at hi1
      rw [List.getD_append _ _ _ _ (by omega),
          List.getD_append _ _ _ _ (by omega),
          List.getD_append_right _ _ _ _ (by omega)]
      have hgap1 := hgap hne
      rw [getLastD_eq_getD, getLastD_eq_getD] at hgap1
      have hidx : ts.length - 1 = i := by omega
      have hidx2 : segs.length - 1 = i := by omega
      rw [hidx] at hgap1
      rw [hidx2] at hgap1
      have hb : (ts.length : Nat) - ts.length = 0 := Nat.sub_self _
      rw [hi1, hb, List.getD_cons_zero]
      exact hgap1

/-- Decoding a `RevAlignOK` selection into forward order, with the anchoring
last segment appended, yields the `getTrueSegmentStarts` result facts. -/
theorem revAlignOK_trueStartsOK :
    ∀ {L : List Segment} {bound : Nat} {os : List Nat},
      RevAlignOK L bound os → ∀ {lS : Segment}, bound ∈ lS.starts →
      TrueStartsOK (L.reverse ++ [lS]) (os.reverse ++ [bound]) := by
  intro L bound os h
  induction h with
  | nil b =>
    intro lS hm
    refine ⟨rfl, ?_, ?_⟩
    · intro i hi
      simp only [List.reverse_nil, List.nil_append, List.length_cons,
        List.length_nil] at hi
      have : i = 0 := by omega
      subst this
      simpa using hm
    · intro i hi
      simp only [List.reverse_nil, List.nil_append, List.length_cons,
        List.length_nil] at hi
      omega
  | cons seg rest b o os hmem hlt h ih =>
    intro lS hm
    rw [List.reverse_cons, List.reverse_cons]
    refine trueStartsOK_snoc (ih hmem) hm ?_
    intro _
    rw [List.getLastD_concat, List.getLastD_concat]
    exact hlt

/-- Every successful `getTrueSegmentStarts` result satisfies
`TrueStartsOK`: one offset per segment, each offset a member of its
segment's occurrence list, consecutive offsets separated by more than the
earlier segment's length. -/
theorem getTrueSegmentStarts_ok {segs : List Segment} {ts : List Nat}
    (h : getTrueSegmentStarts segs = .ok ts) : TrueStartsOK segs ts := by
  rw [getTrueSegmentStarts] at h
  cases hl : segs.getLast? with
  | none =>
    rw [hl] at h
    simp only [Except.ok.injEq] at h
    subst h
    have hse : segs = [] := List.getLast?_eq_none_iff.mp hl
    subst hse
    exact ⟨rfl, fun i hi => by simp at hi, fun i hi => by simp at hi⟩
  | some lastSeg =>
    rw [hl] at h
    dsimp only at h
    split at h
    · exact absurd h (by simp)
    · split at h
      · exact absurd h (by simp)
      · rename_i hgt1 set tail heq
        simp only [Except.ok.injEq] at h
        have hne : segs ≠ [] := by
          intro h0
          rw [h0] at hl
          simp at hl
        have hmemf : set ∈ (lastSeg.starts.map
            (fun a => buildChainAux segs.dropLast.reverse [a])).filter
            (fun set => set.length == segs.length) := by
          rw [heq]
          exact List.mem_cons_self _ _
        obtain ⟨hmemm, hpred⟩ := List.mem_filter.mp hmemf
        obtain ⟨a, hamem, hset⟩ := List.mem_map.mp hmemm
        have hsetlen : set.length = segs.length := by
          simpa using hpred
        have hdll : segs.dropLast.reverse.length = segs.length - 1 := by
          simp [List.length_dropLast]
        have hsegs1 : 1 ≤ segs.length := by
          cases segs with
          | nil => exact absurd rfl hne
          | cons _ _ => simp
        have hcomplete : (buildChainAux segs.dropLast.reverse [a]).length =
            ([a] : List Nat).length + segs.dropLast.reverse.length := by
          rw [hset, hsetlen]
          simp only [List.length_cons, List.length_nil, hdll]
          omega
        have hrev := buildChainAux_complete_rev segs.dropLast.reverse [a]
          hcomplete
        obtain ⟨extra, hx⟩ := buildChainAux_prefix segs.dropLast.reverse [a]
        rw [hx] at hrev
        have hdrop : (([a] : List Nat) ++ extra).drop 1 = extra := rfl
        rw [show (([a] : List Nat).length = 1) from rfl, hdrop] at hrev
        have hlast : (([a] : List Nat).getLastD 0) = a := rfl
        rw [hlast] at hrev
        have hts := revAlignOK_trueStartsOK hrev hamem
        rw [List.reverse_reverse] at hts
        have hrestore : segs.dropLast ++ [lastSeg] = segs :=
          List.dropLast_append_getLast? lastSeg hl
        rw [hrestore] at hts
        have hdesc := revAlignOK_pairwise_gt hrev
        have hsorted : sortNats set = set.reverse := by
          rw [← hset, hx]
          exact sortNats_of_desc (by simpa using hdesc)
        have htseq : ts = extra.reverse ++ [a] := by
          rw [← h, hsorted, ← hset, hx]
          simp
        rw [htseq]
        exact hts

/-- `findAllSegmentStarts` only returns segments whose recorded occurrence
lists come from `findStarts` (beyond whatever was in the accumulator). -/
theorem findAllAux_ok_starts (str : Str) :
    ∀ (segsIn acc out : List Segment),
      findAllAux str segsIn acc = .ok out →
      ∀ s ∈ out, s ∈ acc ∨ s.starts = findStarts str s.value := by
  intro segsIn
  induction segsIn with
  | nil =>
    intro acc out h s hs
    rw [findAllAux] at h
    simp only [Except.ok.injEq] at h
    subst h
    exact Or.inl hs
  | cons t rest ih =>
    intro acc out h s hs
    rw [findAllAux] at h
    by_cases he : (findStarts str t.value).isEmpty = true
    · rw [if_pos he] at h
      exact absurd h (by simp)
    · rw [if_neg he] at h
      rcases ih _ _ h s hs with hacc | hst
      · rcases List.mem_append.mp hacc with h1 | h2
        · exact Or.inl h1
        · right
          simp only [List.mem_singleton] at h2
          subst h2
          rfl
      · exact Or.inr hst

/-- `findAllSegmentStarts` errors are always NoMatch errors naming a
segment's text and the input. -/
theorem findAllAux_error_shape (str : Str) :
    ∀ (segsIn acc : List Segment) (e : Err),
      findAllAux str segsIn acc = .error e →
      ∃ v, e = .noMatchSegment v str := by
  intro segsIn
  induction segsIn with
  | nil =>
    intro acc e h
    rw [findAllAux] at h
    exact absurd h (by simp)
  | cons t rest ih =>
    intro acc e h
    rw [findAllAux] at h
    by_cases he : (findStarts str t.value).isEmpty = true
    · rw [if_pos he] at h
      simp only [Except.error.injEq] at h
      exact ⟨t.value, h.symm⟩
    · rw [if_neg he] at h
      exact ih _ _ h

/-- `getTrueSegmentStarts` errors are NoMatch or MultipleMatches. -/
theorem getTrueSegmentStarts_error_shape {segs : List Segment} {e : Err}
    (h : getTrueSegmentStarts segs = .error e) :
    e = .noMatch ∨ ∃ k, e = .multipleMatches k := by
  rw [getTrueSegmentStarts] at h
  cases hl : segs.getLast? with
  | none => rw [hl] at h; exact absurd h (by simp)
  | some lastSeg =>
    rw [hl] at h
    dsimp only at h
    split at h
    · simp only [Except.error.injEq] at h
      exact Or.inr ⟨_, h.symm⟩
    · split at h
      · simp only [Except.error.injEq] at h
        exact Or.inl h.symm
      · exact absurd h (by simp)

/-- The capture-group loop never reaches the interior empty-capture "bug"
error when the resolved offsets have the guaranteed gaps and stay within
the input. -/
theorem captureLoop_no_interior_bug
    {verbs : List Verb} {format str : Str} {segs : List Segment}
    {ts : List Nat}
    (hgap : ∀ i, i + 1 < ts.length →
      ts.getD i 0 + (segs.getD i default).value.length < ts.getD (i + 1) 0)
    (hbound : ∀ i, i < ts.length → ts.getD i 0 ≤ str.length) :
    ∀ (fuel i : Nat) (acc : List CaptureGroup) (a b : Str),
      captureLoop verbs format segs ts str fuel i acc ≠
        .error (.bugNoCaptureBetween a b) := by
  intro fuel
  induction fuel with
  | zero =>
    intro i acc a b h
    rw [captureLoop] at h
    exact absurd h (by simp)
  | succ f ih =>
    intro i acc a b h
    rw [captureLoop] at h
    cases hti : ts.get? i with
    | none => rw [hti] at h; exact absurd h (by simp)
    | some start =>
      rw [hti] at h
      have hilen : i < ts.length := (List.get?_eq_some.mp hti).1
      have hstart : ts.getD i 0 = start := by
        simp [List.getD_eq_getElem?_getD, ← List.get?_eq_getElem?, hti]
      dsimp only at h
      split at h
      · rename_i e heq
        split at heq
        · split at heq
          · simp only [Except.error.injEq] at heq
            subst heq
            exact absurd h (by simp)
          · exact absurd heq (by simp)
        · exact absurd heq (by simp)
      · rename_i acc1 heq
        split at h
        · split at h
          · split at h
            · simp only [Except.error.injEq] at h
              exact absurd h (by simp)
            · exact absurd h (by simp)
          · exact absurd h (by simp)
        · rename_i hnotlast
          split at h
          · rename_i hempty
            have hi1 : i + 1 < ts.length := by
              rcases Nat.lt_or_ge (i + 1) ts.length with h1 | h1
              · exact h1
              · exact absurd (by omega) hnotlast
            have hg := hgap i hi1
            have hb := hbound (i + 1) hi1
            rw [hstart] at hg
            have hsub := List.isEmpty_iff.mp hempty
            have hlen0 : ((str.take (ts.getD (i + 1) 0)).drop
                (start + (segs.getD i default).value.length)).length = 0 := by
              rw [hsub]
              rfl
            rw [List.length_drop, List.length_take] at hlen0
            omega
          · exact ih (i + 1) _ a b h

/-- The composed capture pipeline never reaches the interior empty-capture
"bug" error: a resolved alignment always leaves at least one byte between
consecutive segments. -/
theorem capture_no_interior_bug (p : Pattern) (str : Str) (a b : Str) :
    capture p str ≠ .error (.bugNoCaptureBetween a b) := by
  intro h
  rw [capture] at h
  cases hfa : findAllSegmentStarts str p.segments with
  | error e =>
    rw [hfa] at h
    simp only [Except.error.injEq] at h
    obtain ⟨v, hv⟩ := findAllAux_error_shape str p.segments [] e hfa
    rw [h] at hv
    exact absurd hv (by simp)
  | ok segs =>
    rw [hfa] at h
    dsimp only at h
    cases hgt : getTrueSegmentStarts segs with
    | error e =>
      rw [hgt] at h
      simp only [Except.error.injEq] at h
      rcases getTrueSegmentStarts_error_shape hgt with he | ⟨k, he⟩ <;>
        rw [h] at he <;> exact absurd he (by simp)
    | ok ts =>
      rw [hgt] at h
      dsimp only at h
      obtain ⟨hlen, hmem, hgap⟩ := getTrueSegmentStarts_ok hgt
      have hbound : ∀ i, i < ts.length → ts.getD i 0 ≤ str.length := by
        intro i hi
        have hsmem : segs.getD i default ∈ segs := by
          rw [List.getD_eq_getElem segs default (by omega)]
          exact List.getElem_mem _
        rcases findAllAux_ok_starts str p.segments [] segs hfa _ hsmem with
          h0 | hst
        · simp at h0
        · have := hmem i hi
          rw [hst] at this
          exact (findStartsAux_mem this).2.1
      rw [getCaptureGroups] at h
      cases hcl : captureLoop p.verbs p.format segs ts str ts.length 0
          (if ts.isEmpty then [⟨str, p.verbs⟩] else []) with
      | error e =>
        rw [hcl] at h
        simp only [Except.error.injEq] at h
        rw [h] at hcl
        exact captureLoop_no_interior_bug hgap hbound ts.length 0 _ a b hcl
      | ok groups =>
        rw [hcl] at h
        dsimp only at h
        split at h
        · simp only [Except.error.injEq] at h
          exact absurd h (by simp)
        · exact absurd h (by simp)

/-- Claim C7: in every resolved alignment, each chosen offset plus its
segment's length is strictly less than the next chosen offset, and
consequently the interior empty-capture internal-inconsistency ("bug")
branch of the capture partitioner is unreachable. -/
theorem C7_resolved_alignment_gaps :
    (∀ (segs : List Segment) (ts : List Nat),
       getTrueSegmentStarts segs = .ok ts →
       ts.length = segs.length ∧
       ∀ i, i + 1 < ts.length →
         ts.getD i 0 + (segs.getD i default).value.length <
           ts.getD (i + 1) 0) ∧
    (∀ (p : Pattern) (str : Str) (a b : Str),
       capture p str ≠ .error (.bugNoCaptureBetween a b)) := by
  constructor
  · intro segs ts h
    obtain ⟨h1, _, h3⟩ := getTrueSegmentStarts_ok h
    exact ⟨h1, h3⟩
  · exact capture_no_interior_bug

/-- Witness for C7: the gap facts instantiated on the resolved alignment of
the C2 example segments (`[0, 4, 6]`, gaps `0 + 1 < 4` and `4 + 1 < 6`),
and unreachability instantiated at that pattern and input. -/
theorem C7_resolved_alignment_gaps_witness :
    (([0, 4, 6] : List Nat).getD 0 0 +
        (segsC2.getD 0 default).value.length < ([0, 4, 6] : List Nat).getD 1 0) ∧
    capture pC2 strC2 ≠ .error (.bugNoCaptureBetween ['a'] ['b']) := by
  constructor
  · exact (C7_resolved_alignment_gaps.1 segsC2 [0, 4, 6] rfl).2 0 (by decide)
  · exact C7_resolved_alignment_gaps.2 pC2 strC2 ['a'] ['b']

/-- `find?` on a weakly descending list bounds every satisfying element
from above. -/
theorem find?_desc_max {p : Nat → Bool} :
    ∀ {r : List Nat}, r.Pairwise (· ≥ ·) → ∀ {s : Nat}, r.find? p = some s →
      ∀ x ∈ r, p x → x ≤ s := by
  intro r
  induction r with
  | nil => intro _ s h; simp at h
  | cons y ys ih =>
    intro hp s hf x hx hpx
    by_cases hy : p y = true
    · rw [List.find?_cons_of_pos _ hy] at hf
      simp only [Option.some.injEq] at hf
      subst hf
      rcases List.mem_cons.mp hx with rfl | hx
      · exact Nat.le_refl _
      · exact List.rel_of_pairwise_cons hp hx
    · rw [List.find?_cons_of_neg _ hy] at hf
      rcases List.mem_cons.mp hx with rfl | hx
      · exact absurd hpx hy
      · exact ih hp.of_cons hf x hx hpx

/-- Raising the bound preserves a reverse selection. -/
theorem revAlignOK_mono {L : List Segment} {b b2 : Nat} {os : List Nat}
    (h : RevAlignOK L b os) (hb : b ≤ b2) : RevAlignOK L b2 os := by
  cases h with
  | nil => exact RevAlignOK.nil _
  | cons seg rest _ o os hmem hlt hr =>
    exact RevAlignOK.cons _ _ _ _ _ hmem (by omega) hr

/-- Appending one more chosen offset at the early end of a reverse
selection. -/
theorem revAlignOK_snoc :
    ∀ {L : List Segment} {b : Nat} {os : List Nat}, RevAlignOK L b os →
      ∀ {s : Segment} {o : Nat}, o ∈ s.starts →
      o + s.value.length < os.getLastD b →
      RevAlignOK (L ++ [s]) b (os ++ [o]) := by
  intro L b os h
  induction h with
  | nil bound =>
    intro s o hmem hlt
    exact RevAlignOK.cons _ _ _ _ _ hmem (by simpa using hlt)
      (RevAlignOK.nil _)
  | cons seg rest bound o1 os1 hmem1 hlt1 h ih =>
    intro s o hmem hlt
    refine RevAlignOK.cons _ _ _ _ _ hmem1 hlt1 ?_
    apply ih hmem
    rw [List.getLastD_cons] at hlt
    exact hlt

/-- A forward complete alignment ending at offset `a` decodes to membership
of `a` in the last segment's occurrence list plus a reverse selection of the
earlier segments bounded by `a`. -/
theorem alignOK_to_rev :
    ∀ (L : List Segment) (os : List Nat) (s : Segment) (a : Nat),
      alignOK (L ++ [s]) (os ++ [a]) = true →
      a ∈ s.starts ∧ RevAlignOK L.reverse a os.reverse := by
  intro L
  induction L with
  | nil =>
    intro os s a h
    cases os with
    | nil =>
      simp only [List.nil_append, alignOK, gapOK, Bool.and_true,
        Bool.and_eq_true] at h
      exact ⟨List.mem_of_elem_eq_true h, RevAlignOK.nil _⟩
    | cons o os' =>
      exfalso
      simp only [List.nil_append, List.cons_append, alignOK,
        Bool.and_eq_true] at h
      have := h.2
      cases os' <;> simp [alignOK] at this
  | cons s0 L' ih =>
    intro os s a h
    cases os with
    | nil =>
      exfalso
      simp only [List.nil_append, List.cons_append, alignOK,
        Bool.and_eq_true] at h
      have := h.2
      cases L' <;> simp [alignOK] at this
    | cons o0 os' =>
      simp only [List.cons_append, alignOK, Bool.and_eq_true] at h
      obtain ⟨⟨hcont, hgap⟩, hrest⟩ := h
      obtain ⟨hmem, hrev⟩ := ih os' s a hrest
      refine ⟨hmem, ?_⟩
      rw [List.reverse_cons, List.reverse_cons]
      apply revAlignOK_snoc hrev (List.mem_of_elem_eq_true hcont)
      rw [getLastD_eq_getD]
      cases os' with
      | nil =>
        simpa [gapOK] using hgap
      | cons u us =>
        simp only [gapOK, List.append_eq, List.cons_append,
          decide_eq_true_eq] at hgap
        have hlen : (u :: us).reverse.length - 1 = us.length := by simp
        rw [hlen]
        have hgd : (u :: us).reverse.getD us.length a = u := by
          rw [List.reverse_cons,
            List.getD_append_right _ _ _ _ (by simp)]
          simp
        rw [hgd]
        exact hgap

/-- Greedy completeness: whenever a reverse selection below the set's last
element exists at all, the chain construction appends one element for every
remaining segment (each segment's occurrence list being weakly ascending,
the greedy latest-fitting pick is at least the selection's choice). -/
theorem buildChainAux_complete_of_rev :
    ∀ {L : List Segment}, (∀ seg ∈ L, seg.starts.Pairwise (· ≤ ·)) →
      ∀ (set : List Nat) {os : List Nat},
      RevAlignOK L (set.getLastD 0) os →
      (buildChainAux L set).length = set.length + L.length := by
  intro L
  induction L with
  | nil => intro _ set os _; simp [buildChainAux]
  | cons seg rest ih =>
    intro hsort set os hrev
    cases hrev with

    | cons _ _ _ o os2 hmem hlt hr =>
      obtain ⟨s, hs⟩ : ∃ s, findFromEnd seg.starts seg.value.length
          (set.getLastD 0) = some s := by
        cases hfe : findFromEnd seg.starts seg.value.length
            (set.getLastD 0) with
        | some s => exact ⟨s, rfl⟩
        | none =>
          exfalso
          rw [findFromEnd] at hfe
          have := List.find?_eq_none.mp hfe o (List.mem_reverse.mpr hmem)
          simp only [decide_eq_true_eq] at this
          omega
      have hs2 : seg.starts.reverse.find?
          (fun x => decide (x + seg.value.length < set.getLastD 0)) =
          some s := hs
      have hps : s + seg.value.length < set.getLastD 0 := by
        have hfs := List.find?_some hs2
        simpa using hfs
      have hos : o ≤ s := by
        have hrevp : seg.starts.reverse.Pairwise (· ≥ ·) :=
          List.pairwise_reverse.mpr ((hsort seg (by simp)).imp (fun h => h))
        exact find?_desc_max hrevp hs2 o (List.mem_reverse.mpr hmem)
          (decide_eq_true hlt)
      simp only [buildChainAux, hs]
      have hr2 : RevAlignOK rest ((set ++ [s]).getLastD 0) os2 := by
        rw [List.getLastD_concat]
        exact revAlignOK_mono hr hos
      have := ih (fun t ht => hsort t (by simp [ht])) (set ++ [s]) hr2
      simp only [List.length_append, List.length_cons, List.length_nil]
        at this ⊢
      omega

/-- Two distinct list members whose images satisfy the filter give the
filtered map length at least two. -/
theorem filter_map_two_le {p : List Nat → Bool} {f : Nat → List Nat}
    {l : List Nat} {a1 a2 : Nat} (h1 : a1 ∈ l) (h2 : a2 ∈ l) (hne : a1 ≠ a2)
    (hp1 : p (f a1) = true) (hp2 : p (f a2) = true) :
    2 ≤ ((l.map f).filter p).length := by
  obtain ⟨u, v, huv⟩ := List.append_of_mem h1
  subst huv
  have h2uv : a2 ∈ u ∨ a2 ∈ v := by
    rcases List.mem_append.mp h2 with h | h
    · exact Or.inl h
    · rcases List.mem_cons.mp h with rfl | h
      · exact absurd rfl hne
      · exact Or.inr h
  have hp1c : (p ∘ f) a1 = true := hp1
  rw [← List.countP_eq_length_filter, List.countP_map, List.countP_append,
    List.countP_cons_of_pos _ _ hp1c]
  rcases h2uv with h | h
  · have : 0 < u.countP (p ∘ f) :=
      List.countP_pos_iff.mpr ⟨a2, h, hp2⟩
    omega
  · have : 0 < v.countP (p ∘ f) :=
      List.countP_pos_iff.mpr ⟨a2, h, hp2⟩
    omega

/-- Claim C2 (amended): whenever complete in-order non-overlapping
alignments with two *distinct final-segment offsets* exist, the resolver
fails with MultipleMatches (alignments that share the final segment's
offset, as in the counterexample, can be resolved silently to the tightest
one). -/
theorem C2_distinct_anchors_multiple_matches :
    ∀ (p : Pattern) (str : Str) (segs : List Segment)
      (os1 os2 : List Nat) (a1 a2 : Nat),
      findAllSegmentStarts str p.segments = .ok segs →
      alignOK segs (os1 ++ [a1]) = true →
      alignOK segs (os2 ++ [a2]) = true →
      a1 ≠ a2 →
      ∃ k, 2 ≤ k ∧ capture p str = .error (.multipleMatches k) := by
  intro p str segs os1 os2 a1 a2 hfa h1 h2 hne
  have hsegsne : segs ≠ [] := by
    intro h0
    subst h0
    cases os1 <;> simp [alignOK] at h1
  obtain ⟨lastSeg, hl⟩ : ∃ lS, segs.getLast? = some lS := by
    cases hsl : segs.getLast? with
    | none => exact absurd (List.getLast?_eq_none_iff.mp hsl) hsegsne
    | some lS => exact ⟨lS, rfl⟩
  have hrestore : segs.dropLast ++ [lastSeg] = segs :=
    List.dropLast_append_getLast? lastSeg hl
  have hb1 := alignOK_to_rev segs.dropLast os1 lastSeg a1
    (by rw [hrestore]; exact h1)
  have hb2 := alignOK_to_rev segs.dropLast os2 lastSeg a2
    (by rw [hrestore]; exact h2)
  have hsort : ∀ seg ∈ segs.dropLast.reverse,
      seg.starts.Pairwise (· ≤ ·) := by
    intro seg hseg
    have hmem : seg ∈ segs :=
      List.dropLast_subset segs (List.mem_reverse.mp hseg)
    rcases findAllAux_ok_starts str p.segments [] segs hfa seg hmem with
      h0 | hst
    · simp at h0
    · rw [hst]; exact findStarts_sorted_le str seg.value
  have hc1 : (buildChainAux segs.dropLast.reverse [a1]).length =
      1 + segs.dropLast.reverse.length :=
    buildChainAux_complete_of_rev hsort [a1] hb1.2
  have hc2 : (buildChainAux segs.dropLast.reverse [a2]).length =
      1 + segs.dropLast.reverse.length :=
    buildChainAux_complete_of_rev hsort [a2] hb2.2
  have hlens : segs.length = 1 + segs.dropLast.reverse.length := by
    have h1l : 1 ≤ segs.length := by
      cases segs with
      | nil => exact absurd rfl hsegsne
      | cons _ _ => simp
    simp only [List.length_reverse, List.length_dropLast]
    omega
  have hq1 : ((buildChainAux segs.dropLast.reverse [a1]).length ==
      segs.length) = true := by
    rw [hc1, hlens]
    simp
  have hq2 : ((buildChainAux segs.dropLast.reverse [a2]).length ==
      segs.length) = true := by
    rw [hc2, hlens]
    simp
  have hcount : 2 ≤ ((lastSeg.starts.map
      (fun a => buildChainAux segs.dropLast.reverse [a])).filter
      (fun set => set.length == segs.length)).length :=
    filter_map_two_le hb1.1 hb2.1 hne hq1 hq2
  have hgt : getTrueSegmentStarts segs =
      .error (.multipleMatches ((lastSeg.starts.map
        (fun a => buildChainAux segs.dropLast.reverse [a])).filter
        (fun set => set.length == segs.length)).length) := by
    rw [getTrueSegmentStarts, hl]
    dsimp only
    rw [if_pos (by omega)]
  refine ⟨_, hcount, ?_⟩
  rw [capture, hfa]
  dsimp only
  rw [hgt]

/-- Witness for C2: with format `"a%db"` against input `"a1b2b"`, the two
occurrences of `"b"` (offsets 2 and 4) each anchor a complete alignment
(`[0, 2]` and `[0, 4]`), and the scan fails with MultipleMatches. -/
theorem C2_distinct_anchors_multiple_matches_witness :
    ∃ k, 2 ≤ k ∧
      capture ⟨"a%db".toList, [⟨'d', 1, []⟩],
          [⟨['a'], 0, []⟩, ⟨['b'], 3, []⟩]⟩ "a1b2b".toList =
        .error (.multipleMatches k) :=
  C2_distinct_anchors_multiple_matches
    ⟨"a%db".toList, [⟨'d', 1, []⟩], [⟨['a'], 0, []⟩, ⟨['b'], 3, []⟩]⟩
    "a1b2b".toList [⟨['a'], 0, [0]⟩, ⟨['b'], 3, [2, 4]⟩]
    [0] [0] 2 4 rfl rfl rfl (by decide)

/-- Witness for C6: the scan relation holds for the recorded occurrences of
segment `"a"` in `"aba"` (offsets 0 and 2), and the finder errors on a
segment absent from the input. -/
theorem C6_occurrence_finder_witness :
    ScanFrom "aba".toList "a".toList 0 [0, 2] ∧
    findAllAux "xy".toList [⟨['z'], 0, []⟩] [] =
      .error (.noMatchSegment ['z'] "xy".toList) := by
  constructor
  · have h := (C6_occurrence_finder.1 "aba".toList "a".toList
      (by decide)).1
    have heq : findStarts "aba".toList "a".toList = [0, 2] := rfl
    rw [heq] at h
    exact h
  · have h := C6_occurrence_finder.2.2 "xy".toList [] ⟨['z'], 0, []⟩ [] []
      (by simp) rfl
    simpa using h

end Unfmt
